import Mathlib

/-!
Verification of the log preprocessing and pattern classification engine
of the `cifix` repository (`src/cifix/preprocessor.py`,
`src/cifix/patterns.py`, `src/cifix/classifier.py`).

Text is modelled as `List Char`.  The concrete regular-expression
substitutions used by the preprocessors (`re.sub` of the ANSI-escape,
timestamp-prefix and command-echo patterns) are hand-compiled to
deterministic scanners: each pattern here is such that greedy
character-class munching is exact (the character following a starred
class never belongs to the class), so no backtracking is needed.
`re.sub` semantics: scan the original string left to right, replace each
leftmost non-overlapping match by the empty string, and continue
scanning immediately after the match (the result is never re-scanned).

The scanners that skip over a match are written with an explicit fuel
argument so that they are structurally recursive and kernel-evaluable;
every step consumes at least one character of the input, so fuel equal
to the input length is always sufficient and the `fuel = 0` branch is
unreachable from the wrappers that supply `l.length`.
-/

/-- Whitespace for Python's `str.strip` / regex `\s`
(ASCII whitespace plus the common Unicode whitespace seen in logs). -/
def isPySpace (c : Char) : Bool :=
  c = ' ' || c = '\t' || c = '\n' || c = '\x0d' || c = '\x0b' || c = '\x0c' ||
  c = '\x1c' || c = '\x1d' || c = '\x1e' || c = '\x1f' || c = '\x85' ||
  c = '\xa0' || c = '\u2028' || c = '\u2029'

/-- Python `str.strip()`: drop leading and trailing whitespace. -/
def pyStrip (l : List Char) : List Char :=
  ((l.dropWhile isPySpace).reverse.dropWhile isPySpace).reverse

/-- Line-break characters recognised by Python `str.splitlines`
(`\r\n` is treated as a single break by `splitlinesGo`). -/
def isLineBreak (c : Char) : Bool :=
  c = '\n' || c = '\x0d' || c = '\x0b' || c = '\x0c' ||
  c = '\x1c' || c = '\x1d' || c = '\x1e' || c = '\x85' ||
  c = '\u2028' || c = '\u2029'

/-- Worker for `splitlines`; `cur` is the current line, reversed. -/
def splitlinesGo (cur : List Char) : List Char → List (List Char)
  | [] => [cur.reverse]
  | '\x0d' :: '\n' :: rest =>
      cur.reverse :: (if rest.isEmpty then [] else splitlinesGo [] rest)
  | c :: rest =>
      if isLineBreak c then
        cur.reverse :: (if rest.isEmpty then [] else splitlinesGo [] rest)
      else
        splitlinesGo (c :: cur) rest

/-- Python `str.splitlines()`: split at line breaks, no trailing empty
line for a trailing break, `[]` for the empty string. -/
def splitlines (s : List Char) : List (List Char) :=
  if s.isEmpty then [] else splitlinesGo [] s

/-- `"\n".join(...)` on a list of lines. -/
def joinNL (bufs : List (List Char)) : List Char :=
  List.intercalate ['\n'] bufs

/-- Decimal value of a digit run (Python `int` of `\d+`). -/
def digitsVal (ds : List Char) : Nat :=
  ds.foldl (fun a c => 10 * a + (c.toNat - 48)) 0

/-! ### The ANSI escape pattern `\x1b\[[0-9;]*m` -/

/-- After an `\x1b`, try to consume `\[[0-9;]*m`; return the remainder. -/
def ansiTail (l : List Char) : Option (List Char) :=
  match l with
  | '[' :: r =>
      match r.dropWhile (fun c => c.isDigit || c = ';') with
      | 'm' :: rr => some rr
      | _ => none
  | _ => none

/-- `re.sub(r"\x1b\[[0-9;]*m", "", ·)`, fuelled. -/
def stripAnsiGo : Nat → List Char → List Char
  | 0, l => l
  | _ + 1, [] => []
  | fuel + 1, c :: rest =>
      if c = '\x1b' then
        match ansiTail rest with
        | some rest' => stripAnsiGo fuel rest'
        | none => c :: stripAnsiGo fuel rest
      else c :: stripAnsiGo fuel rest

/-- Strip ANSI color/style escape sequences. -/
def stripAnsi (l : List Char) : List Char := stripAnsiGo l.length l

/-- Does `\x1b\[[0-9;]*m` match anywhere in the string? -/
def hasAnsi : List Char → Bool
  | [] => false
  | c :: rest =>
      if c = '\x1b' ∧ (ansiTail rest).isSome then true else hasAnsi rest

/-! ### The timestamp pattern `^\d{4}-\d{2}-\d{2}T[\d:.]+Z\s*` (re.M) -/

/-- Consume exactly `n` decimal digits. -/
def expectDigits : Nat → List Char → Option (List Char)
  | 0, l => some l
  | _ + 1, [] => none
  | n + 1, c :: l => if c.isDigit then expectDigits n l else none

/-- Consume one given character. -/
def expectChar (x : Char) : List Char → Option (List Char)
  | [] => none
  | c :: l => if c = x then some l else none

/-- Character class `[\d:.]`. -/
def tsCls (c : Char) : Bool := c.isDigit || c = ':' || c = '.'

/-- Try `\d{4}-\d{2}-\d{2}T[\d:.]+Z\s*` at the current position.
Returns `(whether the matched text ends with a newline, remainder)`;
the Bool says whether the position after the match is a line start. -/
def tsMatch (l : List Char) : Option (Bool × List Char) :=
  match expectDigits 4 l with
  | none => none
  | some l1 =>
  match expectChar '-' l1 with
  | none => none
  | some l2 =>
  match expectDigits 2 l2 with
  | none => none
  | some l3 =>
  match expectChar '-' l3 with
  | none => none
  | some l4 =>
  match expectDigits 2 l4 with
  | none => none
  | some l5 =>
  match expectChar 'T' l5 with
  | none => none
  | some l6 =>
      let run := l6.takeWhile tsCls
      if run.isEmpty then none
      else
        match expectChar 'Z' (l6.dropWhile tsCls) with
        | none => none
        | some l7 =>
            let ws := l7.takeWhile isPySpace
            some (ws.getLast? = some '\n', l7.dropWhile isPySpace)

/-- `re.sub` of the timestamp pattern (multiline `^` anchor tracked by
`atStart`: true at the string start and right after a `'\n'`). -/
def stripTSGo : Nat → Bool → List Char → List Char
  | 0, _, l => l
  | _ + 1, _, [] => []
  | fuel + 1, atStart, c :: rest =>
      if atStart then
        match tsMatch (c :: rest) with
        | some (nl, rest') => stripTSGo fuel nl rest'
        | none => c :: stripTSGo fuel (c = '\n') rest
      else c :: stripTSGo fuel (c = '\n') rest

/-- Strip per-line ISO-8601 timestamp prefixes. -/
def stripTS (l : List Char) : List Char := stripTSGo l.length true l

/-- Does the timestamp pattern match at some line start? -/
def hasTS (atStart : Bool) : List Char → Bool
  | [] => false
  | c :: rest =>
      if atStart ∧ (tsMatch (c :: rest)).isSome then true
      else hasTS (c = '\n') rest

/-! ### The command-echo pattern `^##\[command\].*$` (re.M) -/

/-- Try `##\[command\].*$` at a line start; `.` excludes `'\n'` and `$`
is a zero-width assertion, so the match runs to just before the next
newline (or the end); return the remainder. -/
def cmdMatch (l : List Char) : Option (List Char) :=
  if ("##[command]".toList).isPrefixOf l then
    some ((l.drop 11).dropWhile (fun c => c ≠ '\n'))
  else none

/-- `re.sub` of the command-echo pattern; a match never ends with a
newline, so the position after a match is never a line start. -/
def stripCmdGo : Nat → Bool → List Char → List Char
  | 0, _, l => l
  | _ + 1, _, [] => []
  | fuel + 1, atStart, c :: rest =>
      if atStart then
        match cmdMatch (c :: rest) with
        | some rest' => stripCmdGo fuel false rest'
        | none => c :: stripCmdGo fuel (c = '\n') rest
      else c :: stripCmdGo fuel (c = '\n') rest

/-- Strip command-echo lines. -/
def stripCmd (l : List Char) : List Char := stripCmdGo l.length true l

/-- Does the command-echo pattern match at some line start? -/
def hasCmd (atStart : Bool) : List Char → Bool
  | [] => false
  | c :: rest =>
      if atStart ∧ (cmdMatch (c :: rest)).isSome then true
      else hasCmd (c = '\n') rest

/-! ### `preprocessor.py` -/

/-- `StepBlock`: a single CI step's name and log output. -/
structure StepBlock where
  name : List Char
  text : List Char
  exit_code : Option Nat := none
deriving DecidableEq, Repr

namespace LogPreprocessor

/-- `LogPreprocessor.clean`: strip ANSI escape codes. -/
def clean (raw : List Char) : List Char := stripAnsi raw

/-- `LogPreprocessor.split_steps`: the whole cleaned log as one block. -/
def split_steps (raw : List Char) : List StepBlock :=
  [{ name := "(full log)".toList, text := clean raw }]

end LogPreprocessor

namespace GitHubActionsPreprocessor

/-- `GitHubActionsPreprocessor.clean`: ANSI escapes, then timestamp
prefixes, then command-echo lines. -/
def clean (raw : List Char) : List Char :=
  stripCmd (stripTS (LogPreprocessor.clean raw))

/-- `_GROUP_START.match(line)`: the line starts with `##[group]`
(the trailing `(.*)` always matches inside one line). -/
def isGroupStart (line : List Char) : Bool :=
  ("##[group]".toList).isPrefixOf line

/-- The group-start marker's argument: the rest of the line. -/
def groupArg (line : List Char) : List Char := line.drop 9

/-- `_GROUP_END.match(line)`: the line starts with `##[endgroup]`. -/
def isGroupEnd (line : List Char) : Bool :=
  ("##[endgroup]".toList).isPrefixOf line

/-- `blocks.append(StepBlock(...))` guarded by `if current_lines:`. -/
def flushBuf (name : List Char) (buf : List (List Char)) : List StepBlock :=
  if buf.isEmpty then [] else [{ name := name, text := joinNL buf }]

/-- The segmentation loop of `split_steps`, blocks emitted in order. -/
def splitStepsLoop (name : List Char) (buf : List (List Char)) :
    List (List Char) → List StepBlock
  | [] => flushBuf name buf
  | line :: rest =>
      if isGroupStart line then
        flushBuf name buf ++
          splitStepsLoop (pyStrip (groupArg line)) [] rest
      else if isGroupEnd line then
        flushBuf name buf ++
          splitStepsLoop ("(between steps)".toList) [] rest
      else
        splitStepsLoop name (buf ++ [line]) rest

/-- `GitHubActionsPreprocessor.split_steps`. -/
def split_steps (raw : List Char) : List StepBlock :=
  (splitStepsLoop ("(preamble)".toList) [] (splitlines (clean raw))).filter
    (fun b => !(pyStrip b.text).isEmpty)

/-- `re.search(r"exit code (\d+)", ·)` at one position: the literal
`"exit code "` followed by a maximal non-empty digit run. -/
def exitHere (l : List Char) : Option Nat :=
  if ("exit code ".toList).isPrefixOf l then
    let ds := (l.drop 10).takeWhile Char.isDigit
    if ds.isEmpty then none else some (digitsVal ds)
  else none

/-- Leftmost `exit code N` occurrence in the text. -/
def findExitCode : List Char → Option Nat
  | [] => none
  | c :: rest =>
      match exitHere (c :: rest) with
      | some n => some n
      | none => findExitCode rest

/-- `GitHubActionsPreprocessor.extract_exit_code`. -/
def extract_exit_code (b : StepBlock) : StepBlock :=
  match findExitCode b.text with
  | some n => { b with exit_code := some n }
  | none => b

end GitHubActionsPreprocessor

/-- The registered preprocessor variants (the base class itself is not
in the registry). -/
inductive PreprocKind where
  | base
  | github
deriving DecidableEq, Repr

/-- Dispatch of `split_steps` over the variant. -/
def PreprocKind.split_steps : PreprocKind → List Char → List StepBlock
  | .base => LogPreprocessor.split_steps
  | .github => GitHubActionsPreprocessor.split_steps

/-- The `PREPROCESSORS` registry: provider name to variant. -/
def PREPROCESSORS : List (String × PreprocKind) :=
  [("github", PreprocKind.github)]

/-- The error raised for an unregistered provider (`ValueError` in the
source, carrying the requested provider and the registered names). -/
structure UnknownProviderError where
  provider : String
  available : List String
deriving DecidableEq, Repr

/-- `get_preprocessor`. -/
def get_preprocessor (provider : String) :
    Except UnknownProviderError PreprocKind :=
  match PREPROCESSORS.lookup provider with
  | some cls => .ok cls
  | none =>
      .error { provider := provider, available := PREPROCESSORS.map (·.1) }

/-! ### `patterns.py` data model -/

/-- `ErrorCategory`. -/
inductive ErrorCategory where
  | INFRASTRUCTURE
  | CODE
  | UNKNOWN
deriving DecidableEq, Repr

/-- `ErrorSeverity`. -/
inductive ErrorSeverity where
  | FATAL
  | ERROR
  | WARNING
deriving DecidableEq, Repr

/-- One registry entry `(pattern, error_type, severity, suggestion)`.
`search line` models `pattern.search(line)` returning the matched text
`m.group(0)` (or `none` when the pattern does not match the line); the
classification engine is proved for every rule list, which covers the
concrete built-in regexes together with any rules added through
`register_patterns`. -/
structure PatternEntry where
  search : List Char → Option (List Char)
  error_type : String
  severity : ErrorSeverity
  suggestion : String

/-! ### `classifier.py` -/

/-- `ClassifiedError`. -/
structure ClassifiedError where
  category : ErrorCategory
  error_type : String
  summary : List Char
  severity : ErrorSeverity
  source_lines : List (List Char)
  step_name : List Char
  suggestion : String
  match_text : List Char
deriving DecidableEq, Repr

/-- `AnalysisResult`. -/
structure AnalysisResult where
  errors : List ClassifiedError
  verdict : String
  infra_count : Nat
  code_count : Nat
deriving DecidableEq, Repr

/-- `_context_window(lines, idx)`: `lines[max(0,idx-2) : min(len,idx+3)]`. -/
def contextWindow (lines : List (List Char)) (idx : Nat) : List (List Char) :=
  (lines.drop (idx - 2)).take (min lines.length (idx + 3) - (idx - 2))

/-- The first rule of the list whose pattern matches the line, with the
matched text — the inner `for pattern, ... / break` loop. -/
def firstMatch (pats : List PatternEntry) (line : List Char) :
    Option (PatternEntry × List Char) :=
  match pats with
  | [] => none
  | p :: ps =>
      match p.search line with
      | some m => some (p, m)
      | none => firstMatch ps line

/-- Build the `ClassifiedError` appended for a match (summary is the
matched text stripped and truncated to 200 characters). -/
def mkFinding (cat : ErrorCategory) (p : PatternEntry) (m : List Char)
    (lines : List (List Char)) (i : Nat) (name : List Char) :
    ClassifiedError :=
  { category := cat
    error_type := p.error_type
    summary := (pyStrip m).take 200
    severity := p.severity
    source_lines := contextWindow lines i
    step_name := name
    suggestion := p.suggestion
    match_text := m }

/-- The per-line body of `_classify_block`: infrastructure rules are
tried first and, when any matches, code rules are not consulted;
otherwise the first matching code rule is used. The result is the
Finding candidate before deduplication. -/
def lineFinding (infraP codeP : List PatternEntry)
    (lines : List (List Char)) (i : Nat) (name : List Char)
    (line : List Char) : Option ClassifiedError :=
  match firstMatch infraP line with
  | some (p, m) => some (mkFinding .INFRASTRUCTURE p m lines i name)
  | none =>
      match firstMatch codeP line with
      | some (p, m) => some (mkFinding .CODE p m lines i name)
      | none => none

/-- The dedup key `(err_type, summary)`. -/
def dedupKey (e : ClassifiedError) : String × List Char :=
  (e.error_type, e.summary)

/-- The `for i, line in enumerate(lines)` loop of `_classify_block`,
threading the per-segment `seen` set (modelled as a list, only
membership is used). -/
def classifyLoop (infraP codeP : List PatternEntry)
    (lines : List (List Char)) (name : List Char)
    (seen : List (String × List Char)) :
    List (Nat × List Char) → List ClassifiedError
  | [] => []
  | (i, line) :: rest =>
      match lineFinding infraP codeP lines i name line with
      | none => classifyLoop infraP codeP lines name seen rest
      | some f =>
          if dedupKey f ∈ seen then
            classifyLoop infraP codeP lines name seen rest
          else
            f :: classifyLoop infraP codeP lines name (dedupKey f :: seen) rest

/-- `_classify_block`: classify errors in a single step block, with a
fresh (empty) `seen` set. -/
def classifyBlock (infraP codeP : List PatternEntry) (block : StepBlock) :
    List ClassifiedError :=
  classifyLoop infraP codeP (splitlines block.text) block.name []
    (splitlines block.text).enum

/-- `cat_rank`. -/
def cat_rank : ErrorCategory → Nat
  | .INFRASTRUCTURE => 0
  | .CODE => 1
  | .UNKNOWN => 2

/-- `sev_rank`. -/
def sev_rank : ErrorSeverity → Nat
  | .FATAL => 0
  | .ERROR => 1
  | .WARNING => 2

/-- The sort key `(cat_rank[e.category], sev_rank[e.severity])`. -/
def sortKey (e : ClassifiedError) : Nat × Nat :=
  (cat_rank e.category, sev_rank e.severity)

/-- Strict lexicographic order on sort keys. -/
def keyLt (a b : Nat × Nat) : Prop :=
  a.1 < b.1 ∨ (a.1 = b.1 ∧ a.2 < b.2)

instance (a b : Nat × Nat) : Decidable (keyLt a b) := by
  unfold keyLt; exact inferInstance

/-- Non-strict lexicographic order on sort keys. -/
def keyLe (a b : Nat × Nat) : Prop :=
  a.1 < b.1 ∨ (a.1 = b.1 ∧ a.2 ≤ b.2)

/-- Stable insertion: `x` goes before the first element whose key is
not strictly smaller, hence after every earlier element with an equal
key. -/
def insertS (x : ClassifiedError) : List ClassifiedError → List ClassifiedError
  | [] => [x]
  | y :: ys => if keyLt (sortKey y) (sortKey x) then y :: insertS x ys
               else x :: y :: ys

/-- `all_errors.sort(key=lambda e: (cat_rank[e.category],
sev_rank[e.severity]))` — Python's `list.sort` is a stable sort, which
this insertion sort models exactly. -/
def sortStable : List ClassifiedError → List ClassifiedError
  | [] => []
  | x :: xs => insertS x (sortStable xs)

/-- The findings of the whole log in discovery order: segment order as
produced by the preprocessor, then in-segment line order (the
concatenation built by the `for block in blocks` loop of `classify`,
before sorting). -/
def discovered (infraP codeP : List PatternEntry) (pp : PreprocKind)
    (raw : List Char) : List ClassifiedError :=
  (pp.split_steps raw).flatMap (classifyBlock infraP codeP)

/-- `classify(raw_log, provider)`; the Python `ValueError` raised on an
unknown provider becomes the `Except.error` branch. -/
def classify (infraP codeP : List PatternEntry) (raw : List Char)
    (provider : String) : Except UnknownProviderError AnalysisResult :=
  match get_preprocessor provider with
  | .error e => .error e
  | .ok pp =>
      let all_errors := discovered infraP codeP pp raw
      let sorted := sortStable all_errors
      let infra := sorted.countP (fun e => e.category = .INFRASTRUCTURE)
      let code := sorted.countP (fun e => e.category = .CODE)
      .ok { errors := sorted
            verdict :=
              if infra ≠ 0 ∧ code ≠ 0 then "both"
              else if infra ≠ 0 then "infrastructure"
              else if code ≠ 0 then "code"
              else "clean"
            infra_count := infra
            code_count := code }

/-! ### Definitions written from the specification's words, to be
compared with the source embeddings (refinement claims C4 and C7). -/

/-- The verdict function as the specification states it:
`"both"` if `infra_count > 0` and `code_count > 0`; else
`"infrastructure"` if `infra_count > 0`; else `"code"` if
`code_count > 0`; else `"clean"`. -/
def specVerdict (infra code : Nat) : String :=
  if infra > 0 ∧ code > 0 then "both"
  else if infra > 0 then "infrastructure"
  else if code > 0 then "code"
  else "clean"

/-- One step of the segmentation state machine as the specification
words it: state is (current name, line buffer, segments emitted so
far); a group-start marker flushes a non-empty buffer under the current
name and installs the marker's trimmed argument as the name; a
group-end marker flushes a non-empty buffer and installs the
"(between steps)" sentinel; any other line is appended to the buffer. -/
def segSpecStep (st : List Char × List (List Char) × List StepBlock)
    (line : List Char) : List Char × List (List Char) × List StepBlock :=
  let (name, buf, segs) := st
  if GitHubActionsPreprocessor.isGroupStart line then
    (pyStrip (GitHubActionsPreprocessor.groupArg line), [],
      segs ++ GitHubActionsPreprocessor.flushBuf name buf)
  else if GitHubActionsPreprocessor.isGroupEnd line then
    ("(between steps)".toList, [],
      segs ++ GitHubActionsPreprocessor.flushBuf name buf)
  else
    (name, buf ++ [line], segs)

/-- The GitHub segmentation as the specification words it: walk the
cleaned lines from the initial state ("(preamble)", empty buffer),
flush any remaining buffer after the last line, and drop every segment
whose body is empty or whitespace-only. -/
def splitStepsSpec (raw : List Char) : List StepBlock :=
  let lines := splitlines (GitHubActionsPreprocessor.clean raw)
  let final := lines.foldl segSpecStep ("(preamble)".toList, [], [])
  (final.2.2 ++ GitHubActionsPreprocessor.flushBuf final.1 final.2.1).filter
    (fun b => b.text.any (fun c => !isPySpace c))

/-! ### Lemmas: a match-free string is a fixed point of each stripper -/

theorem stripAnsiGo_of_not_hasAnsi (fuel : Nat) :
    ∀ l : List Char, l.length ≤ fuel → hasAnsi l = false →
      stripAnsiGo fuel l = l := by
  induction fuel with
  | zero => intro l hl _; rfl
  | succ n ih =>
    intro l hl hm
    match l with
    | [] => rfl
    | c :: rest =>
      simp only [hasAnsi] at hm
      split at hm
      · exact absurd hm (by simp)
      · rename_i hcond
        rw [stripAnsiGo]
        by_cases hc : c = '\x1b'
        · have hnone : ansiTail rest = none := by
            cases hopt : ansiTail rest with
            | none => rfl
            | some r => exact absurd ⟨hc, by simp [hopt]⟩ hcond
          simp only [if_pos hc, hnone]
          have := ih rest (by simpa using Nat.le_of_succ_le_succ hl) hm
          rw [this]
        · simp only [if_neg hc]
          have := ih rest (by simpa using Nat.le_of_succ_le_succ hl) hm
          rw [this]

theorem stripAnsi_of_not_hasAnsi (l : List Char) (h : hasAnsi l = false) :
    stripAnsi l = l :=
  stripAnsiGo_of_not_hasAnsi l.length l (Nat.le_refl _) h

theorem stripTSGo_of_not_hasTS (fuel : Nat) :
    ∀ (st : Bool) (l : List Char), l.length ≤ fuel → hasTS st l = false →
      stripTSGo fuel st l = l := by
  induction fuel with
  | zero => intro st l hl _; rfl
  | succ n ih =>
    intro st l hl hm
    match l with
    | [] => rfl
    | c :: rest =>
      simp only [hasTS] at hm
      split at hm
      · exact absurd hm (by simp)
      · rename_i hcond
        rw [stripTSGo]
        cases st with
        | false =>
          rw [if_neg (by simp : ¬ (false = true))]
          exact congrArg (List.cons c)
            (ih _ rest (by simpa using Nat.le_of_succ_le_succ hl) hm)
        | true =>
          have hnone : tsMatch (c :: rest) = none := by
            cases hopt : tsMatch (c :: rest) with
            | none => rfl
            | some r => exact absurd ⟨rfl, by simp [hopt]⟩ hcond
          rw [if_pos rfl, hnone]
          exact congrArg (List.cons c)
            (ih _ rest (by simpa using Nat.le_of_succ_le_succ hl) hm)

theorem stripTS_of_not_hasTS (l : List Char) (h : hasTS true l = false) :
    stripTS l = l :=
  stripTSGo_of_not_hasTS l.length true l (Nat.le_refl _) h

theorem stripCmdGo_of_not_hasCmd (fuel : Nat) :
    ∀ (st : Bool) (l : List Char), l.length ≤ fuel → hasCmd st l = false →
      stripCmdGo fuel st l = l := by
  induction fuel with
  | zero => intro st l hl _; rfl
  | succ n ih =>
    intro st l hl hm
    match l with
    | [] => rfl
    | c :: rest =>
      simp only [hasCmd] at hm
      split at hm
      · exact absurd hm (by simp)
      · rename_i hcond
        rw [stripCmdGo]
        cases st with
        | false =>
          rw [if_neg (by simp : ¬ (false = true))]
          exact congrArg (List.cons c)
            (ih _ rest (by simpa using Nat.le_of_succ_le_succ hl) hm)
        | true =>
          have hnone : cmdMatch (c :: rest) = none := by
            cases hopt : cmdMatch (c :: rest) with
            | none => rfl
            | some r => exact absurd ⟨rfl, by simp [hopt]⟩ hcond
          rw [if_pos rfl, hnone]
          exact congrArg (List.cons c)
            (ih _ rest (by simpa using Nat.le_of_succ_le_succ hl) hm)

theorem stripCmd_of_not_hasCmd (l : List Char) (h : hasCmd true l = false) :
    stripCmd l = l :=
  stripCmdGo_of_not_hasCmd l.length true l (Nat.le_refl _) h

/-! ### Claim C6 — idempotence of the noise-stripping step -/

/-- An input on which one cleaning pass splices a fresh ANSI escape
sequence together: removing the inner `\x1b[0m` makes the surrounding
characters form `\x1b[0m`, which only a second pass removes. -/
def cleanCounterexampleInput : List Char := "\x1b\x1b[0m[0m".toList

/-- C6 is FALSE as stated: `clean` is not idempotent, neither for the
default variant nor for the GitHub variant. `re.sub` never re-scans
its output, so a deletion can create a new occurrence of the pattern:
on `"\x1b\x1b[0m[0m"` one pass yields `"\x1b[0m"` and a second pass
yields `""`. -/
theorem clean_not_idempotent :
    LogPreprocessor.clean (LogPreprocessor.clean cleanCounterexampleInput) ≠
      LogPreprocessor.clean cleanCounterexampleInput ∧
    GitHubActionsPreprocessor.clean
        (GitHubActionsPreprocessor.clean cleanCounterexampleInput) ≠
      GitHubActionsPreprocessor.clean cleanCounterexampleInput := by
  constructor
  · decide
  · decide

/-- C6 (amended): one cleaning pass is a fixed point of `clean` on
every input whose cleaned form contains no further strippable pattern —
no ANSI escape sequence for the default variant, and additionally no
line-leading ISO-8601 timestamp and no command-echo line for the GitHub
variant. (Unconditional idempotence fails: see the counterexample.) -/
theorem clean_fixed_point_of_stripped :
    (∀ x : List Char, hasAnsi (LogPreprocessor.clean x) = false →
        LogPreprocessor.clean (LogPreprocessor.clean x) =
          LogPreprocessor.clean x) ∧
    (∀ x : List Char,
        hasAnsi (GitHubActionsPreprocessor.clean x) = false →
        hasTS true (GitHubActionsPreprocessor.clean x) = false →
        hasCmd true (GitHubActionsPreprocessor.clean x) = false →
        GitHubActionsPreprocessor.clean
            (GitHubActionsPreprocessor.clean x) =
          GitHubActionsPreprocessor.clean x) := by
  constructor
  · intro x h
    exact stripAnsi_of_not_hasAnsi _ h
  · intro x hAnsi hTS hCmd
    show stripCmd (stripTS (stripAnsi (GitHubActionsPreprocessor.clean x))) = _
    rw [stripAnsi_of_not_hasAnsi _ hAnsi, stripTS_of_not_hasTS _ hTS,
      stripCmd_of_not_hasCmd _ hCmd]

/-- Witness for the amended C6 at a concrete input containing real ANSI
noise. -/
theorem clean_fixed_point_of_stripped_witness :
    LogPreprocessor.clean
        (LogPreprocessor.clean ("\x1b[31mred\x1b[0m".toList)) =
      LogPreprocessor.clean ("\x1b[31mred\x1b[0m".toList) ∧
    GitHubActionsPreprocessor.clean
        (GitHubActionsPreprocessor.clean ("\x1b[31mred\x1b[0m".toList)) =
      GitHubActionsPreprocessor.clean ("\x1b[31mred\x1b[0m".toList) :=
  ⟨clean_fixed_point_of_stripped.1 _ (by decide),
   clean_fixed_point_of_stripped.2 _ (by decide) (by decide) (by decide)⟩

/-! ### Claim C5 — unknown provider fails with the listing error -/

/-- C5: for every provider name with no registered preprocessor
variant, the lookup and `classify` both fail with an error naming the
requested provider and listing the registered providers, and no
analysis result is produced. -/
theorem classify_unknown_provider (infraP codeP : List PatternEntry)
    (raw : List Char) (provider : String)
    (h : (PREPROCESSORS.lookup provider).isNone) :
    get_preprocessor provider =
      .error { provider := provider, available := ["github"] } ∧
    classify infraP codeP raw provider =
      .error { provider := provider, available := ["github"] } := by
  have hl : PREPROCESSORS.lookup provider = none := by
    cases hx : PREPROCESSORS.lookup provider with
    | none => rfl
    | some v => rw [hx] at h; simp at h
  have hg : get_preprocessor provider =
      .error { provider := provider, available := ["github"] } := by
    rw [get_preprocessor, hl]
    rfl
  exact ⟨hg, by rw [classify, hg]⟩


/-- Witness for C5 at the unregistered provider `"gitlab"`. -/
theorem classify_unknown_provider_witness :
    classify [] [] [] "gitlab" =
      .error { provider := "gitlab", available := ["github"] } :=
  (classify_unknown_provider [] [] [] "gitlab" (by decide)).2

/-! ### Claim C9 — `extract_exit_code` effect and frame -/

/-- C9: `extract_exit_code` sets the exit-code attribute to the value
of the first `exit code N` occurrence of the body when one exists,
leaves it unchanged when none occurs, and never changes the segment's
name or body text. -/
theorem extract_exit_code_spec (b : StepBlock) :
    (GitHubActionsPreprocessor.extract_exit_code b).name = b.name ∧
    (GitHubActionsPreprocessor.extract_exit_code b).text = b.text ∧
    (∀ n, GitHubActionsPreprocessor.findExitCode b.text = some n →
        (GitHubActionsPreprocessor.extract_exit_code b).exit_code = some n) ∧
    (GitHubActionsPreprocessor.findExitCode b.text = none →
        (GitHubActionsPreprocessor.extract_exit_code b).exit_code =
          b.exit_code) := by
  unfold GitHubActionsPreprocessor.extract_exit_code
  cases h : GitHubActionsPreprocessor.findExitCode b.text with
  | some n =>
      refine ⟨rfl, rfl, ?_, ?_⟩
      · intro m hm
        cases hm
        rfl
      · intro hn
        cases hn
  | none =>
      refine ⟨rfl, rfl, ?_, fun _ => rfl⟩
      intro m hm
      cases hm

/-- Witness for C9 on a segment whose body reports `exit code 2`
(first occurrence wins) and on one with no such pattern. -/
theorem extract_exit_code_spec_witness :
    (GitHubActionsPreprocessor.extract_exit_code
        { name := "s".toList,
          text := "Process completed with exit code 2\nexit code 3".toList,
          exit_code := none }).exit_code = some 2 :=
  (extract_exit_code_spec _).2.2.1 2 (by decide)

/-! ### Lemmas about the stable sort -/

theorem keyLe_of_keyLt {a b : Nat × Nat} (h : keyLt a b) : keyLe a b := by
  unfold keyLt at h; unfold keyLe; omega

theorem keyLe_of_not_keyLt {a b : Nat × Nat} (h : ¬ keyLt a b) : keyLe b a := by
  unfold keyLt at h; unfold keyLe; omega

theorem keyLe_trans {a b c : Nat × Nat} (h1 : keyLe a b) (h2 : keyLe b c) :
    keyLe a c := by
  unfold keyLe at *; omega

theorem not_keyLt_of_eq {a b : Nat × Nat} (h : a = b) : ¬ keyLt a b := by
  subst h; unfold keyLt; omega

theorem mem_insertS {z x : ClassifiedError} :
    ∀ {l}, z ∈ insertS x l → z = x ∨ z ∈ l := by
  intro l
  induction l with
  | nil =>
    intro h
    rw [insertS] at h
    exact Or.inl (List.mem_singleton.mp h)
  | cons y ys ih =>
    intro h
    by_cases hlt : keyLt (sortKey y) (sortKey x)
    · rw [insertS, if_pos hlt] at h
      rcases List.mem_cons.mp h with rfl | h2
      · exact Or.inr (List.mem_cons_self _ _)
      · rcases ih h2 with rfl | h3
        · exact Or.inl rfl
        · exact Or.inr (List.mem_cons_of_mem _ h3)
    · rw [insertS, if_neg hlt] at h
      rcases List.mem_cons.mp h with rfl | h2
      · exact Or.inl rfl
      · exact Or.inr h2

theorem perm_insertS (x : ClassifiedError) :
    ∀ l, List.Perm (insertS x l) (x :: l) := by
  intro l
  induction l with
  | nil => rw [insertS]
  | cons y ys ih =>
    by_cases hlt : keyLt (sortKey y) (sortKey x)
    · rw [insertS, if_pos hlt]
      exact (ih.cons y).trans (List.Perm.swap x y ys)
    · rw [insertS, if_neg hlt]

theorem perm_sortStable : ∀ l, List.Perm (sortStable l) l := by
  intro l
  induction l with
  | nil => rw [sortStable]
  | cons x xs ih =>
    rw [sortStable]
    exact (perm_insertS x (sortStable xs)).trans (ih.cons x)

theorem pairwise_insertS (x : ClassifiedError) :
    ∀ l, l.Pairwise (fun a b => keyLe (sortKey a) (sortKey b)) →
      (insertS x l).Pairwise (fun a b => keyLe (sortKey a) (sortKey b)) := by
  intro l
  induction l with
  | nil =>
    intro _
    rw [insertS]
    exact List.pairwise_singleton _ _
  | cons y ys ih =>
    intro h
    rcases List.pairwise_cons.mp h with ⟨hy, hys⟩
    by_cases hlt : keyLt (sortKey y) (sortKey x)
    · rw [insertS, if_pos hlt]
      refine List.pairwise_cons.mpr ⟨?_, ih hys⟩
      intro z hz
      rcases mem_insertS hz with rfl | hz2
      · exact keyLe_of_keyLt hlt
      · exact hy z hz2
    · rw [insertS, if_neg hlt]
      have hxy : keyLe (sortKey x) (sortKey y) := keyLe_of_not_keyLt hlt
      refine List.pairwise_cons.mpr ⟨?_, h⟩
      intro z hz
      rcases List.mem_cons.mp hz with rfl | hz2
      · exact hxy
      · exact keyLe_trans hxy (hy z hz2)

theorem pairwise_sortStable :
    ∀ l, (sortStable l).Pairwise (fun a b => keyLe (sortKey a) (sortKey b)) := by
  intro l
  induction l with
  | nil => rw [sortStable]; exact List.Pairwise.nil
  | cons x xs ih =>
    rw [sortStable]
    exact pairwise_insertS x (sortStable xs) ih

theorem filter_key_insertS (k : Nat × Nat) (x : ClassifiedError) :
    ∀ l, (insertS x l).filter (fun e => decide (sortKey e = k)) =
      if sortKey x = k then
        x :: l.filter (fun e => decide (sortKey e = k))
      else l.filter (fun e => decide (sortKey e = k)) := by
  intro l
  induction l with
  | nil =>
    by_cases hxk : sortKey x = k <;> simp [insertS, hxk]
  | cons y ys ih =>
    by_cases hlt : keyLt (sortKey y) (sortKey x)
    · rw [insertS, if_pos hlt]
      by_cases hyk : sortKey y = k
      · by_cases hxk : sortKey x = k
        · exact absurd hlt (not_keyLt_of_eq (hyk.trans hxk.symm))
        · simp [List.filter_cons, hyk, hxk, ih]
      · simp [List.filter_cons, hyk, ih]
    · rw [insertS, if_neg hlt]
      by_cases hxk : sortKey x = k <;> simp [List.filter_cons, hxk]

theorem filter_key_sortStable (k : Nat × Nat) :
    ∀ l, (sortStable l).filter (fun e => decide (sortKey e = k)) =
      l.filter (fun e => decide (sortKey e = k)) := by
  intro l
  induction l with
  | nil => rw [sortStable]
  | cons x xs ih =>
    rw [sortStable, filter_key_insertS]
    by_cases hxk : sortKey x = k <;> simp [List.filter_cons, hxk, ih]

/-! ### Demo rules used to instantiate the witnesses: literal-substring
patterns, the `search` of a regex consisting of a literal. -/

/-- Does `pat` occur as a contiguous substring? -/
def hasSubstr (pat : List Char) : List Char → Bool
  | [] => pat.isEmpty
  | c :: rest => pat.isPrefixOf (c :: rest) || hasSubstr pat rest

/-- `search` of a literal pattern: the match text is the literal. -/
def literalSearch (pat : List Char) (line : List Char) : Option (List Char) :=
  if hasSubstr pat line then some pat else none

/-- A demo infrastructure rule (the `out_of_memory` built-in restricted
to one of its literal alternatives). -/
def demoInfraRule : PatternEntry :=
  { search := literalSearch ("Cannot allocate memory".toList)
    error_type := "out_of_memory"
    severity := .FATAL
    suggestion := "Use a larger runner or reduce parallelism." }

/-- A demo code rule (the `import_error` built-in restricted to one of
its literal alternatives). -/
def demoCodeRule : PatternEntry :=
  { search := literalSearch ("ModuleNotFoundError".toList)
    error_type := "import_error"
    severity := .ERROR
    suggestion := "Add dependency or fix import path." }

/-! ### Lemmas about the per-line and per-segment classification -/

theorem firstMatch_isSome_of_exists (line : List Char) :
    ∀ pats : List PatternEntry, (∃ p ∈ pats, (p.search line).isSome) →
      (firstMatch pats line).isSome := by
  intro pats
  induction pats with
  | nil =>
    rintro ⟨p, hp, _⟩
    cases hp
  | cons q qs ih =>
    rintro ⟨p, hp, hsome⟩
    rw [firstMatch]
    cases hq : q.search line with
    | some m => rfl
    | none =>
      rcases List.mem_cons.mp hp with rfl | hmem
      · rw [hq] at hsome
        cases hsome
      · exact ih ⟨p, hmem, hsome⟩

theorem lineFinding_infra_of_match (infraP codeP : List PatternEntry)
    (lines : List (List Char)) (i : Nat) (name line : List Char)
    (h : ∃ p ∈ infraP, (p.search line).isSome) :
    ∃ f, lineFinding infraP codeP lines i name line = some f ∧
      f.category = ErrorCategory.INFRASTRUCTURE := by
  have hs := firstMatch_isSome_of_exists line infraP h
  cases hfm : firstMatch infraP line with
  | none => rw [hfm] at hs; cases hs
  | some pm =>
    obtain ⟨p, m⟩ := pm
    exact ⟨mkFinding .INFRASTRUCTURE p m lines i name,
      by rw [lineFinding, hfm], rfl⟩

theorem lineFinding_category (infraP codeP : List PatternEntry)
    (lines : List (List Char)) (i : Nat) (name line : List Char)
    (f : ClassifiedError)
    (h : lineFinding infraP codeP lines i name line = some f) :
    f.category = ErrorCategory.INFRASTRUCTURE ∨
      f.category = ErrorCategory.CODE := by
  unfold lineFinding at h
  cases h1 : firstMatch infraP line with
  | some pm =>
    obtain ⟨p, m⟩ := pm
    rw [h1] at h
    cases h
    exact Or.inl rfl
  | none =>
    rw [h1] at h
    cases h2 : firstMatch codeP line with
    | some pm =>
      obtain ⟨p, m⟩ := pm
      rw [h2] at h
      cases h
      exact Or.inr rfl
    | none =>
      rw [h2] at h
      cases h

theorem classifyLoop_provenance (infraP codeP : List PatternEntry)
    (lines : List (List Char)) (name : List Char) :
    ∀ (l : List (Nat × List Char)) (seen : List (String × List Char))
      (e : ClassifiedError),
      e ∈ classifyLoop infraP codeP lines name seen l →
      ∃ il ∈ l, lineFinding infraP codeP lines il.1 name il.2 = some e := by
  intro l
  induction l with
  | nil =>
    intro seen e he
    rw [classifyLoop] at he
    cases he
  | cons il rest ih =>
    intro seen e he
    obtain ⟨i, line⟩ := il
    cases hlf : lineFinding infraP codeP lines i name line with
    | none =>
      rw [classifyLoop] at he
      simp only [hlf] at he
      obtain ⟨il', h1, h2⟩ := ih seen e he
      exact ⟨il', List.mem_cons_of_mem _ h1, h2⟩
    | some f =>
      rw [classifyLoop] at he
      simp only [hlf] at he
      by_cases hseen : dedupKey f ∈ seen
      · rw [if_pos hseen] at he
        obtain ⟨il', h1, h2⟩ := ih seen e he
        exact ⟨il', List.mem_cons_of_mem _ h1, h2⟩
      · rw [if_neg hseen] at he
        rcases List.mem_cons.mp he with rfl | he2
        · exact ⟨(i, line), List.mem_cons_self _ _, hlf⟩
        · obtain ⟨il', h1, h2⟩ := ih _ e he2
          exact ⟨il', List.mem_cons_of_mem _ h1, h2⟩

theorem classifyLoop_nodup (infraP codeP : List PatternEntry)
    (lines : List (List Char)) (name : List Char) :
    ∀ (l : List (Nat × List Char)) (seen : List (String × List Char)),
      ((classifyLoop infraP codeP lines name seen l).map dedupKey).Nodup ∧
      ∀ e ∈ classifyLoop infraP codeP lines name seen l,
        dedupKey e ∉ seen := by
  intro l
  induction l with
  | nil =>
    intro seen
    rw [classifyLoop]
    exact ⟨List.nodup_nil, fun e he => absurd he (List.not_mem_nil e)⟩
  | cons il rest ih =>
    intro seen
    obtain ⟨i, line⟩ := il
    cases hlf : lineFinding infraP codeP lines i name line with
    | none =>
      rw [classifyLoop]
      simp only [hlf]
      exact ih seen
    | some f =>
      by_cases hseen : dedupKey f ∈ seen
      · rw [classifyLoop]
        simp only [hlf]
        rw [if_pos hseen]
        exact ih seen
      · rw [classifyLoop]
        simp only [hlf]
        rw [if_neg hseen]
        obtain ⟨ihn, ihs⟩ := ih (dedupKey f :: seen)
        constructor
        · rw [List.map_cons]
          refine List.nodup_cons.mpr ⟨?_, ihn⟩
          intro hmem
          obtain ⟨e, he, hkey⟩ := List.mem_map.mp hmem
          exact ihs e he (hkey ▸ List.mem_cons_self _ _)
        · intro e he
          rcases List.mem_cons.mp he with rfl | he2
          · exact hseen
          · exact fun hmem => ihs e he2 (List.mem_cons_of_mem _ hmem)

theorem classifyLoop_key_iff (infraP codeP : List PatternEntry)
    (lines : List (List Char)) (name : List Char) :
    ∀ (l : List (Nat × List Char)) (seen : List (String × List Char))
      (k : String × List Char),
      (∃ e ∈ classifyLoop infraP codeP lines name seen l, dedupKey e = k) ↔
      (k ∉ seen ∧ ∃ il ∈ l, ∃ f,
          lineFinding infraP codeP lines il.1 name il.2 = some f ∧
          dedupKey f = k) := by
  intro l
  induction l with
  | nil =>
    intro seen k
    rw [classifyLoop]
    simp
  | cons il rest ih =>
    intro seen k
    obtain ⟨i, line⟩ := il
    cases hlf : lineFinding infraP codeP lines i name line with
    | none =>
      rw [classifyLoop]
      simp only [hlf]
      rw [ih seen k]
      constructor
      · rintro ⟨hk, il', h1, hf⟩
        exact ⟨hk, il', List.mem_cons_of_mem _ h1, hf⟩
      · rintro ⟨hk, il', h1, g, hg, hkey⟩
        rcases List.mem_cons.mp h1 with heq | h2
        · subst heq
          rw [hlf] at hg
          cases hg
        · exact ⟨hk, il', h2, g, hg, hkey⟩
    | some f =>
      by_cases hseen : dedupKey f ∈ seen
      · rw [classifyLoop]
        simp only [hlf]
        rw [if_pos hseen, ih seen k]
        constructor
        · rintro ⟨hk, il', h1, hf⟩
          exact ⟨hk, il', List.mem_cons_of_mem _ h1, hf⟩
        · rintro ⟨hk, il', h1, g, hg, hkey⟩
          rcases List.mem_cons.mp h1 with heq | h2
          · subst heq
            rw [hlf] at hg
            cases hg
            exact absurd (hkey ▸ hseen) hk
          · exact ⟨hk, il', h2, g, hg, hkey⟩
      · rw [classifyLoop]
        simp only [hlf]
        rw [if_neg hseen]
        constructor
        · rintro ⟨e, he, hkey⟩
          rcases List.mem_cons.mp he with rfl | he2
          · exact ⟨hkey ▸ hseen, (i, line), List.mem_cons_self _ _, e, hlf,
              hkey⟩
          · obtain ⟨hk, il', h1, g, hg, hkg⟩ :=
              (ih (dedupKey f :: seen) k).mp ⟨e, he2, hkey⟩
            exact ⟨fun hx => hk (List.mem_cons_of_mem _ hx), il',
              List.mem_cons_of_mem _ h1, g, hg, hkg⟩
        · rintro ⟨hk, il', h1, g, hg, hkg⟩
          rcases List.mem_cons.mp h1 with heq | h2
          · subst heq
            rw [hlf] at hg
            cases hg
            exact ⟨f, List.mem_cons_self _ _, hkg⟩
          · by_cases hkf : dedupKey f = k
            · exact ⟨f, List.mem_cons_self _ _, hkf⟩
            · have hnot : k ∉ dedupKey f :: seen := by
                intro hx
                rcases List.mem_cons.mp hx with rfl | hx2
                · exact hkf rfl
                · exact hk hx2
              obtain ⟨e, he, hkey⟩ :=
                (ih (dedupKey f :: seen) k).mpr ⟨hnot, il', h2, g, hg, hkg⟩
              exact ⟨e, List.mem_cons_of_mem _ he, hkey⟩

/-! ### The result record produced by `classify` on the ok path -/

/-- The `AnalysisResult` built by `classify` once the preprocessor
variant `pp` has been resolved. -/
def analysisOf (infraP codeP : List PatternEntry) (pp : PreprocKind)
    (raw : List Char) : AnalysisResult :=
  let sorted := sortStable (discovered infraP codeP pp raw)
  let infra := sorted.countP (fun e => e.category = ErrorCategory.INFRASTRUCTURE)
  let code := sorted.countP (fun e => e.category = ErrorCategory.CODE)
  { errors := sorted
    verdict :=
      if infra ≠ 0 ∧ code ≠ 0 then "both"
      else if infra ≠ 0 then "infrastructure"
      else if code ≠ 0 then "code"
      else "clean"
    infra_count := infra
    code_count := code }

theorem classify_eq_ok (infraP codeP : List PatternEntry) (raw : List Char)
    (provider : String) (pp : PreprocKind)
    (hp : get_preprocessor provider = .ok pp) :
    classify infraP codeP raw provider =
      .ok (analysisOf infraP codeP pp raw) := by
  rw [classify, hp]
  rfl

theorem countP_infra_add_code (l : List ClassifiedError) :
    l.countP (fun e => e.category = ErrorCategory.INFRASTRUCTURE) +
      l.countP (fun e => e.category = ErrorCategory.CODE) =
    (l.filter (fun e => e.category ≠ ErrorCategory.UNKNOWN)).length := by
  induction l with
  | nil => rfl
  | cons e l ih =>
    rw [List.countP_cons, List.countP_cons, List.filter_cons]
    simp only [ne_eq, decide_not] at ih ⊢
    cases hc : e.category <;> simp [hc] <;> omega

theorem countP_add_of_no_unknown (l : List ClassifiedError)
    (h : ∀ e ∈ l, e.category = ErrorCategory.INFRASTRUCTURE ∨
        e.category = ErrorCategory.CODE) :
    l.countP (fun e => e.category = ErrorCategory.INFRASTRUCTURE) +
      l.countP (fun e => e.category = ErrorCategory.CODE) = l.length := by
  induction l with
  | nil => rfl
  | cons e l ih =>
    rw [List.countP_cons, List.countP_cons, List.length_cons]
    have he := h e (List.mem_cons_self _ _)
    have ihl := ih (fun x hx => h x (List.mem_cons_of_mem _ hx))
    rcases he with hc | hc <;> simp [hc, ihl] <;> omega

theorem verdict_eq_specVerdict (i c : Nat) :
    (if i ≠ 0 ∧ c ≠ 0 then "both"
     else if i ≠ 0 then "infrastructure"
     else if c ≠ 0 then "code"
     else "clean") = specVerdict i c := by
  by_cases hi : i = 0 <;> by_cases hc : c = 0 <;>
    simp [specVerdict, hi, hc, Nat.pos_iff_ne_zero]

/-- A concrete log matching one demo code rule on its first line and
one demo infrastructure rule on its second line, in separate lines of
the single "(preamble)" segment. -/
def demoLog : List Char :=
  "ModuleNotFoundError: No module named config\nCannot allocate memory".toList

/-! ### Claim C1 — infrastructure priority over code, per line -/

/-- C1: on any line where at least one infrastructure rule matches, the
per-line candidate exists and is an INFRASTRUCTURE Finding — code rules
are never consulted for that line, so the output can contain at most an
INFRASTRUCTURE Finding for it (none at all when deduplication
suppresses it), never a CODE finding; and every Finding a segment emits
is the per-line candidate of one of its lines. -/
theorem infra_priority_over_code :
    (∀ (infraP codeP : List PatternEntry) (lines : List (List Char))
        (i : Nat) (name line : List Char),
        (∃ p ∈ infraP, (p.search line).isSome) →
        ∃ f, lineFinding infraP codeP lines i name line = some f ∧
          f.category = ErrorCategory.INFRASTRUCTURE) ∧
    (∀ (infraP codeP : List PatternEntry) (b : StepBlock)
        (e : ClassifiedError), e ∈ classifyBlock infraP codeP b →
        ∃ il ∈ (splitlines b.text).enum,
          lineFinding infraP codeP (splitlines b.text) il.1 b.name il.2 =
            some e) :=
  ⟨lineFinding_infra_of_match,
   fun infraP codeP b e he =>
     classifyLoop_provenance infraP codeP (splitlines b.text) b.name
       (splitlines b.text).enum [] e he⟩

/-- Witness for C1 on a line matching both a demo infrastructure rule
and a demo code rule: the candidate is the infrastructure Finding. -/
theorem infra_priority_over_code_witness :
    ∃ f, lineFinding [demoInfraRule] [demoCodeRule]
        [("ModuleNotFoundError Cannot allocate memory".toList)] 0
        ("step".toList) ("ModuleNotFoundError Cannot allocate memory".toList) =
        some f ∧ f.category = ErrorCategory.INFRASTRUCTURE :=
  infra_priority_over_code.1 [demoInfraRule] [demoCodeRule] _ 0 _ _
    ⟨demoInfraRule, List.mem_cons_self _ _, by decide⟩

/-! ### Claim C2 — per-segment deduplication, reset between segments -/

/-- C2: within one segment no two Findings share a `(kind, summary)`
dedup key; a key occurs among a segment's Findings exactly when some
line of the segment produces a candidate with that key (so one Finding
per key, however many lines produce it); and the suppression set is
per-segment — in a log of two segments with identical bodies the same
key is emitted once in each segment. -/
theorem dedup_per_segment :
    (∀ (infraP codeP : List PatternEntry) (b : StepBlock),
        ((classifyBlock infraP codeP b).map dedupKey).Nodup) ∧
    (∀ (infraP codeP : List PatternEntry) (b : StepBlock)
        (k : String × List Char),
        (∃ e ∈ classifyBlock infraP codeP b, dedupKey e = k) ↔
        (∃ il ∈ (splitlines b.text).enum, ∃ f,
            lineFinding infraP codeP (splitlines b.text) il.1 b.name il.2 =
              some f ∧ dedupKey f = k)) ∧
    ((([{ name := "step one".toList, text := "Cannot allocate memory".toList },
        { name := "step two".toList, text := "Cannot allocate memory".toList }] :
          List StepBlock).flatMap
            (classifyBlock [demoInfraRule] [])).map dedupKey =
      [("out_of_memory", "Cannot allocate memory".toList),
       ("out_of_memory", "Cannot allocate memory".toList)]) := by
  refine ⟨?_, ?_, by rfl⟩
  · intro infraP codeP b
    exact (classifyLoop_nodup infraP codeP (splitlines b.text) b.name
      (splitlines b.text).enum []).1
  · intro infraP codeP b k
    have h := classifyLoop_key_iff infraP codeP (splitlines b.text) b.name
      (splitlines b.text).enum [] k
    simpa using h

/-- Witness for C2: a concrete segment with two lines carrying the same
dedup key yields exactly one Finding with that key. -/
theorem dedup_per_segment_witness :
    ((classifyBlock [demoInfraRule] []
        { name := "s".toList,
          text := "Cannot allocate memory\nCannot allocate memory".toList }).map
      dedupKey).Nodup :=
  dedup_per_segment.1 [demoInfraRule] []
    { name := "s".toList,
      text := "Cannot allocate memory\nCannot allocate memory".toList }

/-! ### Claim C3 — deterministic stable sorting of the final list -/

/-- C3: for every log and registered provider the errors of the result
are sorted by the key `(cat_rank, sev_rank)` with the stated rank
values, and the sort is stable: for each key value, the sub-list with
that key equals the corresponding sub-list of the unsorted discovery
order (segment order, then in-segment line order). -/
theorem classify_sorted_stable (infraP codeP : List PatternEntry)
    (raw : List Char) (provider : String) (pp : PreprocKind)
    (r : AnalysisResult)
    (hp : get_preprocessor provider = .ok pp)
    (h : classify infraP codeP raw provider = .ok r) :
    (cat_rank .INFRASTRUCTURE = 0 ∧ cat_rank .CODE = 1 ∧
      cat_rank .UNKNOWN = 2 ∧ sev_rank .FATAL = 0 ∧ sev_rank .ERROR = 1 ∧
      sev_rank .WARNING = 2) ∧
    r.errors.Pairwise (fun a b => keyLe (sortKey a) (sortKey b)) ∧
    ∀ k : Nat × Nat, r.errors.filter (fun e => sortKey e = k) =
      (discovered infraP codeP pp raw).filter (fun e => sortKey e = k) := by
  have hr : analysisOf infraP codeP pp raw = r :=
    Except.ok.inj ((classify_eq_ok infraP codeP raw provider pp hp).symm.trans h)
  subst hr
  exact ⟨⟨rfl, rfl, rfl, rfl, rfl, rfl⟩, pairwise_sortStable _,
    fun k => filter_key_sortStable k _⟩

/-- Witness for C3 on a log whose discovery order is code-then-infra,
so the sort actually reorders. -/
theorem classify_sorted_stable_witness :
    (analysisOf [demoInfraRule] [demoCodeRule] .github demoLog).errors.Pairwise
      (fun a b => keyLe (sortKey a) (sortKey b)) :=
  (classify_sorted_stable [demoInfraRule] [demoCodeRule] demoLog "github"
    .github (analysisOf [demoInfraRule] [demoCodeRule] .github demoLog)
    rfl rfl).2.1

/-! ### Claim C4 — the verdict function -/

/-- C4: the verdict of every analysis result is exactly the
specification's function of the two counts. -/
theorem classify_verdict_spec (infraP codeP : List PatternEntry)
    (raw : List Char) (provider : String) (pp : PreprocKind)
    (r : AnalysisResult)
    (hp : get_preprocessor provider = .ok pp)
    (h : classify infraP codeP raw provider = .ok r) :
    r.verdict = specVerdict r.infra_count r.code_count := by
  have hr : analysisOf infraP codeP pp raw = r :=
    Except.ok.inj ((classify_eq_ok infraP codeP raw provider pp hp).symm.trans h)
  subst hr
  exact verdict_eq_specVerdict _ _

/-- Witness for C4 on a log with one infrastructure and one code
finding (verdict "both"). -/
theorem classify_verdict_spec_witness :
    (analysisOf [demoInfraRule] [demoCodeRule] .github demoLog).verdict =
      specVerdict
        (analysisOf [demoInfraRule] [demoCodeRule] .github demoLog).infra_count
        (analysisOf [demoInfraRule] [demoCodeRule] .github demoLog).code_count :=
  classify_verdict_spec [demoInfraRule] [demoCodeRule] demoLog "github"
    .github _ rfl rfl

/-! ### Claim C8 — count invariant and verdict dependence -/

/-- C8: `infra_count + code_count` equals the number of findings whose
category is not UNKNOWN, and the verdict is a function of the two
counts alone. -/
theorem classify_count_invariant (infraP codeP : List PatternEntry)
    (raw : List Char) (provider : String) (pp : PreprocKind)
    (r : AnalysisResult)
    (hp : get_preprocessor provider = .ok pp)
    (h : classify infraP codeP raw provider = .ok r) :
    r.infra_count + r.code_count =
      (r.errors.filter (fun e => e.category ≠ ErrorCategory.UNKNOWN)).length ∧
    r.verdict = specVerdict r.infra_count r.code_count := by
  have hr : analysisOf infraP codeP pp raw = r :=
    Except.ok.inj ((classify_eq_ok infraP codeP raw provider pp hp).symm.trans h)
  subst hr
  exact ⟨countP_infra_add_code _, verdict_eq_specVerdict _ _⟩

/-- Witness for C8 on the demo log (counts 1 and 1, two findings, none
UNKNOWN). -/
theorem classify_count_invariant_witness :
    (analysisOf [demoInfraRule] [demoCodeRule] .github demoLog).infra_count +
      (analysisOf [demoInfraRule] [demoCodeRule] .github demoLog).code_count =
    ((analysisOf [demoInfraRule] [demoCodeRule] .github demoLog).errors.filter
      (fun e => e.category ≠ ErrorCategory.UNKNOWN)).length :=
  (classify_count_invariant [demoInfraRule] [demoCodeRule] demoLog "github"
    .github _ rfl rfl).1

/-! ### Claim C10 — the UNKNOWN category is never produced -/

/-- C10: every finding of every analysis result is INFRASTRUCTURE or
CODE, and therefore `infra_count + code_count` is the length of the
whole errors list. -/
theorem classify_no_unknown (infraP codeP : List PatternEntry)
    (raw : List Char) (provider : String) (pp : PreprocKind)
    (r : AnalysisResult)
    (hp : get_preprocessor provider = .ok pp)
    (h : classify infraP codeP raw provider = .ok r) :
    (∀ e ∈ r.errors, e.category = ErrorCategory.INFRASTRUCTURE ∨
        e.category = ErrorCategory.CODE) ∧
    r.infra_count + r.code_count = r.errors.length := by
  have hr : analysisOf infraP codeP pp raw = r :=
    Except.ok.inj ((classify_eq_ok infraP codeP raw provider pp hp).symm.trans h)
  subst hr
  have hall : ∀ e ∈ sortStable (discovered infraP codeP pp raw),
      e.category = ErrorCategory.INFRASTRUCTURE ∨
      e.category = ErrorCategory.CODE := by
    intro e he
    have he' : e ∈ discovered infraP codeP pp raw :=
      (perm_sortStable _).mem_iff.mp he
    obtain ⟨b, hb, heb⟩ := List.mem_flatMap.mp he'
    obtain ⟨il, hil, hlf⟩ := classifyLoop_provenance infraP codeP
      (splitlines b.text) b.name (splitlines b.text).enum [] e heb
    exact lineFinding_category infraP codeP (splitlines b.text) il.1 b.name
      il.2 e hlf
  exact ⟨hall, countP_add_of_no_unknown _ hall⟩

/-- Witness for C10 on the demo log. -/
theorem classify_no_unknown_witness :
    (analysisOf [demoInfraRule] [demoCodeRule] .github demoLog).infra_count +
      (analysisOf [demoInfraRule] [demoCodeRule] .github demoLog).code_count =
    (analysisOf [demoInfraRule] [demoCodeRule] .github demoLog).errors.length :=
  (classify_no_unknown [demoInfraRule] [demoCodeRule] demoLog "github"
    .github _ rfl rfl).2

/-! ### Claim C7 — lemmas for the GitHub segmentation -/

theorem pyStrip_eq_nil_iff (l : List Char) :
    pyStrip l = [] ↔ ∀ c ∈ l, isPySpace c := by
  unfold pyStrip
  rw [List.reverse_eq_nil_iff, List.dropWhile_eq_nil_iff]
  constructor
  · intro h c hc
    have hsplit := List.takeWhile_append_dropWhile isPySpace l
    rw [← hsplit] at hc
    rcases List.mem_append.mp hc with h1 | h2
    · exact List.mem_takeWhile_imp h1
    · exact h c (List.mem_reverse.mpr h2)
  · intro h c hc
    exact h c ((List.dropWhile_sublist isPySpace).subset (List.mem_reverse.mp hc))

theorem strip_nonempty_eq_any (l : List Char) :
    (!(pyStrip l).isEmpty) = l.any (fun c => !isPySpace c) := by
  cases h : l.any (fun c => !isPySpace c) with
  | false =>
    have hall : ∀ c ∈ l, isPySpace c := by
      intro c hc
      have := List.any_eq_false.mp h c hc
      simpa using this
    rw [(pyStrip_eq_nil_iff l).mpr hall]
    rfl
  | true =>
    obtain ⟨c, hc, hcs⟩ := List.any_eq_true.mp h
    cases hstrip : pyStrip l with
    | nil =>
      have := (pyStrip_eq_nil_iff l).mp hstrip c hc
      rw [this] at hcs
      cases hcs
    | cons x xs => rfl

/-- Finishing move of the spec-side segmentation: emitted segments plus
the final flush of the remaining state. -/
def segFinalize (st : List Char × List (List Char) × List StepBlock) :
    List StepBlock :=
  st.2.2 ++ GitHubActionsPreprocessor.flushBuf st.1 st.2.1

theorem foldl_segSpecStep_eq (lines : List (List Char)) :
    ∀ (name : List Char) (buf : List (List Char)) (acc : List StepBlock),
      segFinalize (lines.foldl segSpecStep (name, buf, acc)) =
      acc ++ GitHubActionsPreprocessor.splitStepsLoop name buf lines := by
  induction lines with
  | nil =>
    intro name buf acc
    rw [List.foldl_nil, GitHubActionsPreprocessor.splitStepsLoop, segFinalize]
  | cons line rest ih =>
    intro name buf acc
    rw [List.foldl_cons, GitHubActionsPreprocessor.splitStepsLoop]
    by_cases h1 : GitHubActionsPreprocessor.isGroupStart line = true
    · have hstep : segSpecStep (name, buf, acc) line =
          (pyStrip (GitHubActionsPreprocessor.groupArg line), [],
            acc ++ GitHubActionsPreprocessor.flushBuf name buf) := by
        simp [segSpecStep, h1]
      rw [hstep, ih, List.append_assoc]
      simp [h1]
    · by_cases h2 : GitHubActionsPreprocessor.isGroupEnd line = true
      · have hstep : segSpecStep (name, buf, acc) line =
            ("(between steps)".toList, [],
              acc ++ GitHubActionsPreprocessor.flushBuf name buf) := by
          simp [segSpecStep, h1, h2]
        rw [hstep, ih, List.append_assoc]
        simp [h1, h2]
      · have hstep : segSpecStep (name, buf, acc) line =
            (name, buf ++ [line], acc) := by
          simp [segSpecStep, h1, h2]
        rw [hstep, ih]
        simp [h1, h2]

/-- C7: the GitHub segmentation equals the specification's state
machine — walk cleaned lines from ("(preamble)", empty buffer), flush a
non-empty buffer on group markers (installing the trimmed argument or
the "(between steps)" sentinel as the name), append other lines to the
buffer, flush the remainder at the end — and every whitespace-only
segment is absent from the result. -/
theorem split_steps_spec :
    (∀ raw : List Char,
        GitHubActionsPreprocessor.split_steps raw = splitStepsSpec raw) ∧
    (∀ raw : List Char, ∀ b ∈ GitHubActionsPreprocessor.split_steps raw,
        ∃ c ∈ b.text, isPySpace c = false) := by
  have hmain : ∀ raw : List Char,
      GitHubActionsPreprocessor.split_steps raw = splitStepsSpec raw := by
    intro raw
    have h := foldl_segSpecStep_eq
      (splitlines (GitHubActionsPreprocessor.clean raw))
      ("(preamble)".toList) [] []
    rw [List.nil_append] at h
    simp only [segFinalize] at h
    unfold GitHubActionsPreprocessor.split_steps splitStepsSpec
    dsimp only
    rw [← h]
    exact List.filter_congr (fun b _ => strip_nonempty_eq_any b.text)
  refine ⟨hmain, ?_⟩
  intro raw b hb
  unfold GitHubActionsPreprocessor.split_steps at hb
  have hkeep := List.of_mem_filter hb
  rw [strip_nonempty_eq_any] at hkeep
  obtain ⟨c, hc, hcp⟩ := List.any_eq_true.mp hkeep
  exact ⟨c, hc, by simpa using hcp⟩

/-- The preamble segment of the concrete witness log. -/
def demoPreambleBlock : StepBlock :=
  { name := "(preamble)".toList, text := "alpha".toList, exit_code := none }

/-- Witness for C7 on a concrete marked-up log. -/
theorem split_steps_spec_witness :
    ∃ c ∈ demoPreambleBlock.text, isPySpace c = false :=
  split_steps_spec.2
    ("alpha\n##[group] Build \nmake\n##[endgroup]\n   \ntail".toList)
    demoPreambleBlock (by decide)
